import Mathlib

/-! Verification of stepServo, a step/direction servo loop on an ATtiny13.

A shallow embedding of `src/main.c` and of the macros of `src/avrcommon.h`
that it uses.  The target is an AVR, so `int` is 16 bits wide: every value of
type `int` or `int16_t` is an `Int` that is wrapped into
`[-32768, 32767]` after each arithmetic operation, and the unsigned
registers are `Nat`s reduced modulo their width.
-/

namespace StepServo

/-! ## Machine integers -/

/-- Twos-complement wrap of an integer into the range of `int16_t`
(also the range of `int` on the AVR). -/
def wrapInt16 (x : Int) : Int := (x + 32768) % 65536 - 32768

/-- Twos-complement wrap of an integer into the range of `int8_t`. -/
def wrapInt8 (x : Int) : Int := (x + 128) % 256 - 128

/-- Conversion of an integer to `uint16_t`. -/
def wrapUInt16 (x : Int) : Nat := (x % 65536).toNat

/-- Conversion of a natural number to `uint8_t`. -/
def wrapUInt8 (x : Nat) : Nat := x % 256

/-! ## Macros of `avrcommon.h` -/

/-- The macro `limit(v, l, h)`:
`(((v) > (h)) ? (h) : ((v) < (l)) ? (l) : (v))`. -/
def limit (v l h : Int) : Int :=
  if v > h then h else if v < l then l else v

/-- The macro `SetBit(BIT, PORT)`: `PORT |= (1<<BIT)` on an 8-bit register. -/
def SetBit (bit port : Nat) : Nat := wrapUInt8 (port ||| (1 <<< bit))

/-- The macro `ClearBit(BIT, PORT)`: `PORT &= ~(1<<BIT)` on an 8-bit register;
`~(1<<BIT)` is a 16-bit `int`, whose bit pattern is `65535 - (1<<BIT)`. -/
def ClearBit (bit port : Nat) : Nat := wrapUInt8 (port &&& (65535 - (1 <<< bit)))

/-! ## Constants of `main.c` -/

/-- The step line: `#define STEPBIT 0`. -/
def STEPBIT : Nat := 0

/-- The direction line: `#define DIRBIT 1`. -/
def DIRBIT : Nat := 1

/-- The system clock of the header comment, `attiny13 @ 9.6Mhz`, in Hz. -/
def F_CPU : Nat := 9600000

/-- The timer 0 prescaler selected by `TCCR0B = (2<<CS00)` (clock / 8). -/
def timerPrescale : Nat := 8

/-- The maximum step rate of the header comment, `Max step rate is 20kHz`. -/
def maxStepRate : Nat := 20000

/-! ## Shared state -/

/-- The global variables of `main.c` and the registers the handlers write. -/
structure Machine where
  /-- Variable `volatile uint8_t waitCount`, the sample countdown -/
  waitCount : Nat
  /-- Variable `volatile int16_t ctrl`, the setpoint -/
  ctrl : Int
  /-- Variable `volatile int16_t fb`, the position feedback accumulator -/
  fb : Int
  /-- Variable `int8_t dir`, the direction -/
  dir : Int
  /-- Variable `uint16_t rate`, the timer period -/
  rate : Nat
  /-- Register `OCR0A`, the 8-bit compare register of timer 0 -/
  OCR0A : Nat
  /-- Register `PORTB`, the 8-bit output port -/
  PORTB : Nat
  /-- Register `ADMUX`, the ADC multiplexer register -/
  ADMUX : Nat
  deriving DecidableEq, Repr

/-! ## `setSpeed` -/

/-- The function `setSpeed(int v)` of `main.c`, lines 127-145. -/
def setSpeed (s : Machine) (v : Int) : Machine :=
  let s := { s with dir := 1 }
  let sv : Machine × Int :=
    if v < 0 then ({ s with dir := wrapInt8 (-1) }, wrapInt16 (-v)) else (s, v)
  let s := sv.1
  let v := sv.2
  if v = 0 then { s with dir := 0 }
  else
    let v := wrapInt16 (v * 49)
    let v := wrapInt16 (16335 - v)
    let v := wrapInt16 (Int.tdiv v 64)
    { s with rate := wrapUInt16 v }

/-! ## The main loop -/

/-- Lines 91-94 of `main.c`: the target velocity
`t = fb; t -= ctrl; t /= 2; t = limit(t, -255, 255)`. -/
def target (fb ctrl : Int) : Int :=
  let t := fb
  let t := wrapInt16 (t - ctrl)
  let t := wrapInt16 (Int.tdiv t 2)
  limit t (-255) 255

/-- Line 96 of `main.c`: `v += limit((t - v), -1, 1)`. -/
def ramp (t v : Int) : Int :=
  wrapInt16 (v + limit (wrapInt16 (t - v)) (-1) 1)

/-- One pass through the body of `while(1)` in `main`, lines 91-98: target,
ramp, `setSpeed(v)`.  The local `v` of `main` is carried next to the shared
state.  The call of `waitCalcLoop` that ends the body only paces the loop. -/
def mainLoopBody (s : Machine) (v : Int) : Machine × Int :=
  let t := target s.fb s.ctrl
  let v := ramp t v
  (setSpeed s v, v)

/-- The main loop run for `n` passes with no interrupt changing `fb` or
`ctrl` in between. -/
def runLoop : Nat → Machine × Int → Machine × Int
  | 0, sv => sv
  | n + 1, sv => let sv1 := runLoop n sv; mainLoopBody sv1.1 sv1.2

/-- The main loop run once for each element of a list of snapshots
`(fb, ctrl)`: before each pass the interrupt handlers have left the two shared
variables at the values of the snapshot. -/
def runLoopWith (sv : Machine × Int) : List (Int × Int) → Machine × Int
  | [] => sv
  | (fb, ctrl) :: rest =>
    runLoopWith (mainLoopBody { sv.1 with fb := fb, ctrl := ctrl } sv.2) rest

/-! ## `waitCalcLoop` and the interrupt handlers -/

/-- The handler `ISR(ADC_vect)`, lines 178-184; `adc` is the value read from
the 10-bit conversion register `ADC`. -/
def ADC_vect (s : Machine) (adc : Nat) : Machine :=
  let s := { s with ctrl := wrapInt16 (((adc + 512) % 65536 : Nat) : Int) }
  let s := { s with ADMUX := 1 <<< 1 }
  if s.waitCount ≠ 0 then { s with waitCount := wrapUInt8 (s.waitCount - 1) } else s

/-- The function `waitCalcLoop`, lines 109-112: arm the countdown, then spin
until it is zero.  The conversion-complete events that arrive while it spins
are the list `samples`; the result is the state at loop exit together with the
events not consumed, or `none` when the events run out before the exit. -/
def waitCalcLoop (s : Machine) (samples : List Nat) : Option (Machine × List Nat) :=
  let rec spin (s : Machine) : List Nat → Option (Machine × List Nat)
    | [] => if s.waitCount = 0 then some (s, []) else none
    | a :: rest =>
      if s.waitCount = 0 then some (s, a :: rest) else spin (ADC_vect s a) rest
  spin { s with waitCount := 2 } samples

/-- The values written to `PORTB` by one run of `ISR(TIM0_COMPA_vect)`, in
order. -/
def TIM0_COMPA_portWrites (s : Machine) : List Nat :=
  if s.dir = 0 then []
  else
    let p1 := if s.dir = 1 then SetBit DIRBIT s.PORTB else ClearBit DIRBIT s.PORTB
    let p2 := SetBit STEPBIT p1
    let p3 := ClearBit STEPBIT p2
    [p1, p2, p3]

/-- The handler `ISR(TIM0_COMPA_vect)`, lines 188-208. -/
def TIM0_COMPA_vect (s : Machine) : Machine :=
  let s := { s with OCR0A := wrapUInt8 s.rate }
  if s.dir = 0 then s
  else
    let s :=
      if s.dir = 1 then { s with PORTB := SetBit DIRBIT s.PORTB }
      else { s with PORTB := ClearBit DIRBIT s.PORTB }
    let s := { s with PORTB := SetBit STEPBIT s.PORTB }
    let s := { s with PORTB := ClearBit STEPBIT s.PORTB }
    { s with fb := wrapInt16 (s.fb - s.dir) }

/-- The state set up by `main` before the loop, lines 74-88, for a first
setpoint `c`: `dir = 0`, `rate = 255`, `OCR0A = 255`, `fb = ctrl`. -/
def initMachine (c : Int) : Machine :=
  { waitCount := 0, ctrl := c, fb := c, dir := 0, rate := 255,
    OCR0A := 255, PORTB := 0, ADMUX := 1 <<< 1 }

/-- The commanded velocity set up by `main` before the loop, line 88:
`v = 0`. -/
def initVelocity : Int := 0

/-- A run of `n` timer-compare events, one after the other. -/
def timerEvents : Nat → Machine → Machine
  | 0, s => s
  | n + 1, s => TIM0_COMPA_vect (timerEvents n s)

/-- A run of conversion-complete events, one for each reading of the list. -/
def adcEvents (s : Machine) : List Nat → Machine
  | [] => s
  | a :: rest => adcEvents (ADC_vect s a) rest

/-! ## Intermediate values and individual stores -/

/-- The exact (unwrapped) results of the arithmetic operations that
`setSpeed(v)` executes, in program order, each computed on the 16-bit value
the operation before it left in `v`: `-v` (line 132, when `v < 0`), then
`v * 49`, `16335 - v` and `v / 64` (lines 140-142, when the magnitude is not
zero). -/
def setSpeedIntermediates (v : Int) : List Int :=
  let neg : List Int := if v < 0 then [-v] else []
  let m := if v < 0 then wrapInt16 (-v) else v
  if m = 0 then neg
  else
    let a := m * 49
    let b := 16335 - wrapInt16 a
    let c := Int.tdiv (wrapInt16 b) 64
    neg ++ [a, b, c]

/-- The exact (unwrapped) results of the arithmetic operations of the error
computation, lines 92-93: `t -= ctrl` on `t = fb`, then `t /= 2` on the
16-bit value the subtraction left in `t`. -/
def targetIntermediates (fb ctrl : Int) : List Int :=
  [fb - ctrl, Int.tdiv (wrapInt16 (fb - ctrl)) 2]

/-- A store to one of the two variables `setSpeed` writes, `dir` and `rate`
(`main.c` lines 56-57). -/
inductive Store where
  | dir (d : Int)
  | rate (r : Nat)
  deriving DecidableEq, Repr

/-- The effect of one store on the shared state. -/
def Store.apply (s : Machine) : Store → Machine
  | Store.dir d => { s with dir := d }
  | Store.rate r => { s with rate := r }

/-- The state after a list of stores. -/
def applyStores (s : Machine) (l : List Store) : Machine :=
  l.foldl Store.apply s

/-- The states in which an interrupt handler can run while a list of stores
is carried out from the state `s`: before the first store, between two stores,
and after the last one. -/
def observedDuring (s : Machine) : List Store → List Machine
  | [] => [s]
  | st :: rest => s :: observedDuring (Store.apply s st) rest

/-! ## Basic facts about the machine integers and the macros -/

theorem wrapInt16_eq_self {x : Int} (hlo : -32768 ≤ x) (hhi : x ≤ 32767) :
    wrapInt16 x = x := by
  unfold wrapInt16; omega

theorem limit_bounds (v l h : Int) (hlh : l ≤ h) :
    l ≤ limit v l h ∧ limit v l h ≤ h := by
  unfold limit; split_ifs <;> omega

theorem target_bounds (fb ctrl : Int) :
    -255 ≤ target fb ctrl ∧ target fb ctrl ≤ 255 :=
  limit_bounds _ _ _ (by decide)

/-- Within the velocity range the additions of line 96 do not wrap. -/
theorem ramp_eq {t v : Int} (ht : -255 ≤ t ∧ t ≤ 255) (hv : -255 ≤ v ∧ v ≤ 255) :
    ramp t v = v + limit (t - v) (-1) 1 := by
  have h1 : wrapInt16 (t - v) = t - v := wrapInt16_eq_self (by omega) (by omega)
  have h2 := limit_bounds (t - v) (-1) 1 (by decide)
  unfold ramp
  rw [h1]
  exact wrapInt16_eq_self (by omega) (by omega)

theorem ramp_bounds {t v : Int} (ht : -255 ≤ t ∧ t ≤ 255) (hv : -255 ≤ v ∧ v ≤ 255) :
    -255 ≤ ramp t v ∧ ramp t v ≤ 255 := by
  rw [ramp_eq ht hv]
  unfold limit; split_ifs <;> omega

theorem mainLoopBody_snd (s : Machine) (v : Int) :
    (mainLoopBody s v).2 = ramp (target s.fb s.ctrl) v := rfl

theorem mainLoopBody_fst (s : Machine) (v : Int) :
    (mainLoopBody s v).1 = setSpeed s (ramp (target s.fb s.ctrl) v) := rfl

/-! ## The velocity controller -/

/-- C1. Bounded acceleration: for every state of the shared variables `fb`
and `ctrl` and every commanded velocity `v` in `[-255, 255]`, one pass of the
main-loop body changes `v` by at most 1. -/
theorem bounded_acceleration (s : Machine) (v : Int)
    (hv : -255 ≤ v ∧ v ≤ 255) :
    |(mainLoopBody s v).2 - v| ≤ 1 := by
  rw [mainLoopBody_snd, ramp_eq (target_bounds _ _) hv, abs_le]
  have h := limit_bounds (target s.fb s.ctrl - v) (-1) 1 (by decide)
  omega

theorem bounded_acceleration_witness :
    (-255 ≤ (200 : Int) ∧ (200 : Int) ≤ 255) ∧
      |(mainLoopBody { initMachine 512 with fb := -3000 } 200).2 - 200| ≤ 1 :=
  ⟨by decide, bounded_acceleration _ _ (by decide)⟩

theorem runLoopWith_velocity_bounds (snaps : List (Int × Int)) :
    ∀ sv : Machine × Int, -255 ≤ sv.2 ∧ sv.2 ≤ 255 →
      -255 ≤ (runLoopWith sv snaps).2 ∧ (runLoopWith sv snaps).2 ≤ 255 := by
  induction snaps with
  | nil => intro sv h; exact h
  | cons p rest ih =>
    intro sv h
    obtain ⟨fb, ctrl⟩ := p
    exact ih _ (ramp_bounds (target_bounds _ _) h)

/-- C2. The commanded velocity stays in `[-255, 255]`: it starts at 0, one
pass of the main-loop body keeps it in the range whatever `fb` and `ctrl`
are, and hence it is in the range after any number of passes, whatever the
interrupt handlers did to `fb` and `ctrl` in between; the velocity is the
argument of `setSpeed`, which is therefore always in the documented range. -/
theorem velocity_in_range :
    (-255 ≤ initVelocity ∧ initVelocity ≤ 255) ∧
    (∀ (s : Machine) (v : Int), -255 ≤ v ∧ v ≤ 255 →
      (-255 ≤ (mainLoopBody s v).2 ∧ (mainLoopBody s v).2 ≤ 255) ∧
      (mainLoopBody s v).1 = setSpeed s (mainLoopBody s v).2) ∧
    (∀ (s : Machine) (snaps : List (Int × Int)),
      -255 ≤ (runLoopWith (s, initVelocity) snaps).2 ∧
      (runLoopWith (s, initVelocity) snaps).2 ≤ 255) := by
  refine ⟨by decide, ?_, ?_⟩
  · intro s v hv
    exact ⟨ramp_bounds (target_bounds _ _) hv, rfl⟩
  · intro s snaps
    exact runLoopWith_velocity_bounds snaps (s, initVelocity)
      (show -255 ≤ initVelocity ∧ initVelocity ≤ 255 by decide)

theorem velocity_in_range_witness :
    -255 ≤ (mainLoopBody (initMachine 900) 255).2 ∧
      (mainLoopBody (initMachine 900) 255).2 ≤ 255 :=
  (velocity_in_range.2.1 (initMachine 900) 255 (by decide)).1

/-- C9. Fixed point at equilibrium: for every `fb`, `ctrl` and every `v` in
`[-255, 255]`, if the target velocity equals `v` then one pass of the
main-loop body leaves the commanded velocity unchanged. -/
theorem fixed_point_at_equilibrium (s : Machine) (v : Int)
    (hv : -255 ≤ v ∧ v ≤ 255) (ht : target s.fb s.ctrl = v) :
    (mainLoopBody s v).2 = v := by
  rw [mainLoopBody_snd, ht, ramp_eq hv hv]
  unfold limit; split_ifs <;> omega

theorem fixed_point_at_equilibrium_witness :
    (-255 ≤ (-5 : Int) ∧ (-5 : Int) ≤ 255) ∧
      target ({ initMachine 512 with fb := 501 }).fb ({ initMachine 512 with fb := 501 }).ctrl = -5 ∧
      (mainLoopBody { initMachine 512 with fb := 501 } (-5)).2 = -5 :=
  ⟨by decide, by decide, fixed_point_at_equilibrium _ _ (by decide) (by decide)⟩

/-! ## `setSpeed` -/

/-- The rate conversion of lines 140-143 on a magnitude `m` in `1..255`:
no operation wraps and the quotient is `(16335 - 49 * m) / 64`. -/
theorem rate_conversion_eq {m : Int} (h1 : 1 ≤ m) (h2 : m ≤ 255) :
    wrapUInt16 (wrapInt16 (Int.tdiv (wrapInt16 (16335 - wrapInt16 (m * 49))) 64))
      = ((16335 - 49 * m) / 64).toNat := by
  have e1 : wrapInt16 (m * 49) = m * 49 := wrapInt16_eq_self (by omega) (by omega)
  have e2 : wrapInt16 (16335 - m * 49) = 16335 - m * 49 :=
    wrapInt16_eq_self (by omega) (by omega)
  have e3 : Int.tdiv (16335 - m * 49) 64 = (16335 - m * 49) / 64 :=
    Int.tdiv_eq_ediv (by omega) (by decide)
  have e4 : wrapInt16 ((16335 - m * 49) / 64) = (16335 - m * 49) / 64 :=
    wrapInt16_eq_self (by omega) (by omega)
  have hc : m * 49 = 49 * m := Int.mul_comm _ _
  rw [e1, e2, e3, e4, hc]
  unfold wrapUInt16
  rw [Int.emod_eq_of_lt (by omega) (by omega)]

theorem setSpeed_pos (s : Machine) {v : Int} (h1 : 1 ≤ v) (h2 : v ≤ 255) :
    setSpeed s v = { s with dir := 1, rate := ((16335 - 49 * v) / 64).toNat } := by
  have hn : ¬ v < 0 := by omega
  have hz : ¬ v = 0 := by omega
  simp only [setSpeed, hn, hz, if_false, rate_conversion_eq h1 h2]

theorem setSpeed_neg (s : Machine) {v : Int} (h1 : -255 ≤ v) (h2 : v ≤ -1) :
    setSpeed s v = { s with dir := -1, rate := ((16335 - 49 * (-v)) / 64).toNat } := by
  have hn : v < 0 := by omega
  have e : wrapInt16 (-v) = -v := wrapInt16_eq_self (by omega) (by omega)
  have hz : ¬ (-v) = 0 := by omega
  have h8 : wrapInt8 (-1) = -1 := by decide
  simp only [setSpeed, hn, if_true, e, hz, if_false, h8,
    rate_conversion_eq (show 1 ≤ -v by omega) (show -v ≤ 255 by omega)]

theorem setSpeed_zero (s : Machine) : setSpeed s 0 = { s with dir := 0 } := by
  simp [setSpeed]

/-- The rate written by `setSpeed(v)` for a nonzero `v` in `[-255, 255]`. -/
theorem setSpeed_rate (s : Machine) {v : Int} (hv : -255 ≤ v ∧ v ≤ 255) (h0 : v ≠ 0) :
    (setSpeed s v).rate = (16335 - 49 * v.natAbs) / 64 := by
  rcases Int.lt_or_gt_of_ne h0 with h | h
  · rw [setSpeed_neg s hv.1 (by omega)]
    show ((16335 - 49 * (-v)) / 64).toNat = _
    omega
  · rw [setSpeed_pos s (by omega) hv.2]
    show ((16335 - 49 * v) / 64).toNat = _
    omega

theorem TIM0_COMPA_vect_OCR0A (s : Machine) :
    (TIM0_COMPA_vect s).OCR0A = s.rate % 256 := by
  unfold TIM0_COMPA_vect
  simp only []
  split_ifs <;> rfl

/-- C3. For nonzero velocities in `[-255, 255]` the rate written by
`setSpeed` does not increase when the magnitude grows, lies in `[60, 254]`,
is loaded into the 8-bit register `OCR0A` by the timer handler without
truncation, and the timer clock divided by it is at most the 20 kHz maximum
step rate. -/
theorem rate_monotone_and_in_timer_range (s1 s2 : Machine) (v1 v2 : Int)
    (h1 : 1 ≤ |v1|) (h12 : |v1| ≤ |v2|) (h2 : |v2| ≤ 255) :
    (setSpeed s2 v2).rate ≤ (setSpeed s1 v1).rate ∧
    60 ≤ (setSpeed s1 v1).rate ∧ (setSpeed s1 v1).rate ≤ 254 ∧
    (TIM0_COMPA_vect (setSpeed s1 v1)).OCR0A = (setSpeed s1 v1).rate ∧
    F_CPU / timerPrescale ≤ maxStepRate * (setSpeed s1 v1).rate := by
  rw [Int.abs_eq_natAbs] at h1 h2
  rw [Int.abs_eq_natAbs, Int.abs_eq_natAbs] at h12
  have r1 := setSpeed_rate s1 (v := v1) (by omega) (by omega)
  have r2 := setSpeed_rate s2 (v := v2) (by omega) (by omega)
  rw [TIM0_COMPA_vect_OCR0A, r1, r2]
  have hc : F_CPU / timerPrescale = 1200000 := by decide
  rw [hc]
  unfold maxStepRate
  omega

theorem rate_monotone_and_in_timer_range_witness :
    (1 ≤ |(-3 : Int)| ∧ |(-3 : Int)| ≤ |(200 : Int)| ∧ |(200 : Int)| ≤ 255) ∧
      (setSpeed (initMachine 0) 200).rate ≤ (setSpeed (initMachine 0) (-3)).rate ∧
      60 ≤ (setSpeed (initMachine 0) (-3)).rate ∧
      (setSpeed (initMachine 0) (-3)).rate ≤ 254 :=
  ⟨by decide,
    (rate_monotone_and_in_timer_range (initMachine 0) (initMachine 0) (-3) 200
      (by decide) (by decide) (by decide)).1,
    (rate_monotone_and_in_timer_range (initMachine 0) (initMachine 0) (-3) 200
      (by decide) (by decide) (by decide)).2.1,
    (rate_monotone_and_in_timer_range (initMachine 0) (initMachine 0) (-3) 200
      (by decide) (by decide) (by decide)).2.2.1⟩

/-- C4, as stated, fails: the magnitudes 3 and 4 lie in `1..255` and 3 < 4,
but `setSpeed` writes the same rate 252 for both, so the rate of the larger
magnitude is not strictly smaller. -/
theorem rate_strict_counterexample :
    (1 : Int) ≤ 3 ∧ (3 : Int) < 4 ∧ (4 : Int) ≤ 255 ∧
      (setSpeed (initMachine 0) 3).rate = 252 ∧
      (setSpeed (initMachine 0) 4).rate = 252 ∧
      ¬ (setSpeed (initMachine 0) 4).rate < (setSpeed (initMachine 0) 3).rate := by
  decide

/-- C4, amended. For all magnitudes `1 ≤ m1 < m2 ≤ 255` the rate written by
`setSpeed(m2)` is at most the rate written by `setSpeed(m1)`, and it is
strictly smaller whenever `m2` exceeds `m1` by at least 2. -/
theorem rate_decreasing (s1 s2 : Machine) (m1 m2 : Int)
    (h1 : 1 ≤ m1) (h12 : m1 < m2) (h2 : m2 ≤ 255) :
    (setSpeed s2 m2).rate ≤ (setSpeed s1 m1).rate ∧
    (m1 + 2 ≤ m2 → (setSpeed s2 m2).rate < (setSpeed s1 m1).rate) := by
  rw [setSpeed_rate s1 (v := m1) (by omega) (by omega),
    setSpeed_rate s2 (v := m2) (by omega) (by omega)]
  omega

theorem rate_decreasing_witness :
    ((1 : Int) ≤ 3 ∧ (3 : Int) < 5 ∧ (5 : Int) ≤ 255) ∧
      (setSpeed (initMachine 0) 5).rate < (setSpeed (initMachine 0) 3).rate :=
  ⟨by decide,
    (rate_decreasing (initMachine 0) (initMachine 0) 3 5
      (by decide) (by decide) (by decide)).2 (by decide)⟩

/-- C5. For every `v` in `[-255, 255]`, after `setSpeed(v)` the direction is
1 exactly when `v > 0`, -1 exactly when `v < 0` and 0 exactly when `v = 0`,
and it takes no other value. -/
theorem setSpeed_dir (s : Machine) (v : Int) (hv : -255 ≤ v ∧ v ≤ 255) :
    ((setSpeed s v).dir = 1 ↔ 0 < v) ∧
    ((setSpeed s v).dir = -1 ↔ v < 0) ∧
    ((setSpeed s v).dir = 0 ↔ v = 0) ∧
    ((setSpeed s v).dir = 1 ∨ (setSpeed s v).dir = -1 ∨ (setSpeed s v).dir = 0) := by
  rcases Int.lt_trichotomy v 0 with h | h | h
  · rw [setSpeed_neg s hv.1 (by omega)]
    show ((-1 : Int) = 1 ↔ 0 < v) ∧ ((-1 : Int) = -1 ↔ v < 0) ∧ ((-1 : Int) = 0 ↔ v = 0) ∧
      ((-1 : Int) = 1 ∨ (-1 : Int) = -1 ∨ (-1 : Int) = 0)
    omega
  · subst h
    rw [setSpeed_zero]
    show ((0 : Int) = 1 ↔ (0 : Int) < 0) ∧ ((0 : Int) = -1 ↔ (0 : Int) < 0) ∧
      ((0 : Int) = 0 ↔ (0 : Int) = 0) ∧ ((0 : Int) = 1 ∨ (0 : Int) = -1 ∨ (0 : Int) = 0)
    decide
  · rw [setSpeed_pos s (by omega) hv.2]
    show ((1 : Int) = 1 ↔ 0 < v) ∧ ((1 : Int) = -1 ↔ v < 0) ∧ ((1 : Int) = 0 ↔ v = 0) ∧
      ((1 : Int) = 1 ∨ (1 : Int) = -1 ∨ (1 : Int) = 0)
    omega

theorem setSpeed_dir_witness :
    (-255 ≤ (-7 : Int) ∧ (-7 : Int) ≤ 255) ∧ (setSpeed (initMachine 0) (-7)).dir = -1 :=
  ⟨by decide, (setSpeed_dir (initMachine 0) (-7) (by decide)).2.1.2 (by decide)⟩

/-! ## The target velocity -/

/-- Division by 2 that truncates toward zero, in terms of floor division. -/
theorem tdiv_two (x : Int) :
    Int.tdiv x 2 = if 0 ≤ x then x / 2 else -((-x) / 2) := by
  split_ifs with h
  · exact Int.tdiv_eq_ediv h (by decide)
  · have hx : x = -(-x) := by omega
    rw [hx, Int.neg_tdiv, Int.tdiv_eq_ediv (by omega) (by decide)]
    simp

theorem limit_neg (x : Int) : limit (-x) (-255) 255 = -limit x (-255) 255 := by
  unfold limit; split_ifs <;> omega

/-- C6, as stated, fails: with `fb = 0` and `ctrl = 2` the difference fits in
16 bits, lines 91-94 leave `t = -1`, and `limit((ctrl - fb) / 2, -255, 255)`
is 1. -/
theorem target_sign_counterexample :
    (-32768 ≤ (2 : Int) - 0 ∧ (2 : Int) - 0 ≤ 32767) ∧
      target 0 2 = -1 ∧ limit (Int.tdiv (2 - 0) 2) (-255) 255 = 1 ∧
      target 0 2 ≠ limit (Int.tdiv (2 - 0) 2) (-255) 255 := by
  decide

/-- C6, amended. For every `fb` and `ctrl` whose difference `fb - ctrl` fits in
a 16-bit `int`, the value `t` left by lines 91-94 is
`limit((fb - ctrl) / 2, -255, 255)` with the division truncating toward zero,
which is the negative of `limit((ctrl - fb) / 2, -255, 255)`. -/
theorem target_eq (fb ctrl : Int) (h : -32768 ≤ fb - ctrl ∧ fb - ctrl ≤ 32767) :
    target fb ctrl = limit (Int.tdiv (fb - ctrl) 2) (-255) 255 ∧
    target fb ctrl = -limit (Int.tdiv (ctrl - fb) 2) (-255) 255 := by
  have e1 : wrapInt16 (fb - ctrl) = fb - ctrl := wrapInt16_eq_self h.1 h.2
  have e2 : wrapInt16 (Int.tdiv (fb - ctrl) 2) = Int.tdiv (fb - ctrl) 2 := by
    rw [tdiv_two]
    split_ifs <;> exact wrapInt16_eq_self (by omega) (by omega)
  have e3 : target fb ctrl = limit (Int.tdiv (fb - ctrl) 2) (-255) 255 := by
    unfold target
    simp only [e1, e2]
  refine ⟨e3, ?_⟩
  have e4 : ctrl - fb = -(fb - ctrl) := by omega
  rw [e3, e4, Int.neg_tdiv, limit_neg, Int.neg_neg]

theorem target_eq_witness :
    (-32768 ≤ (1000 : Int) - 512 ∧ (1000 : Int) - 512 ≤ 32767) ∧
      target 1000 512 = limit (Int.tdiv (1000 - 512) 2) (-255) 255 :=
  ⟨by decide, (target_eq 1000 512 (by decide)).1⟩

/-! ## The main loop without interrupts -/

theorem setSpeed_fb (s : Machine) (v : Int) : (setSpeed s v).fb = s.fb := by
  unfold setSpeed
  simp only []
  split_ifs <;> rfl

theorem setSpeed_ctrl (s : Machine) (v : Int) : (setSpeed s v).ctrl = s.ctrl := by
  unfold setSpeed
  simp only []
  split_ifs <;> rfl

theorem runLoop_succ (k : Nat) (sv : Machine × Int) :
    runLoop (k + 1) sv = mainLoopBody (runLoop k sv).1 (runLoop k sv).2 := rfl

theorem runLoop_fb_ctrl (k : Nat) (sv : Machine × Int) :
    (runLoop k sv).1.fb = sv.1.fb ∧ (runLoop k sv).1.ctrl = sv.1.ctrl := by
  induction k with
  | zero => exact ⟨rfl, rfl⟩
  | succ k ih =>
    rw [runLoop_succ, mainLoopBody_fst, setSpeed_fb, setSpeed_ctrl]
    exact ih

/-- The velocity after one more pass, when `fb` and `ctrl` are those of the
starting state. -/
theorem runLoop_succ_velocity (k : Nat) (s : Machine) (v : Int) :
    (runLoop (k + 1) (s, v)).2 = ramp (target s.fb s.ctrl) (runLoop k (s, v)).2 := by
  have h := runLoop_fb_ctrl k (s, v)
  rw [runLoop_succ, mainLoopBody_snd, h.1, h.2]

/-- The direction after one more pass is the one `setSpeed` derives from the
new velocity. -/
theorem runLoop_succ_dir (k : Nat) (s : Machine) (v : Int) :
    (runLoop (k + 1) (s, v)).1.dir
      = (setSpeed (runLoop k (s, v)).1 (runLoop (k + 1) (s, v)).2).dir := rfl

/-- Ramping toward the target -127 from a velocity in `[-127, 0]`. -/
theorem ramp_down_step {v : Int} (h1 : -127 ≤ v) (h2 : v ≤ 0) :
    ramp (-127) v = if v = -127 then -127 else v - 1 := by
  rw [ramp_eq (by decide) (by omega)]
  unfold limit; split_ifs <;> omega

theorem runLoop_max_offset_velocity (s : Machine) (hfb : s.fb = 512)
    (hctrl : s.ctrl = 767) (k : Nat) :
    ((k : Int) ≤ 127 → (runLoop k (s, 0)).2 = -(k : Int)) ∧
    (127 ≤ (k : Int) → (runLoop k (s, 0)).2 = -127) := by
  induction k with
  | zero => exact ⟨fun _ => rfl, fun h => absurd h (by decide)⟩
  | succ k ih =>
    have ht : target s.fb s.ctrl = -127 := by rw [hfb, hctrl]; decide
    rw [runLoop_succ_velocity, ht]
    rcases Nat.lt_or_ge k 127 with hk | hk
    · have hv := ih.1 (by omega)
      rw [hv, ramp_down_step (by omega) (by omega)]
      split_ifs <;> constructor <;> intro _ <;> push_cast <;> omega
    · have hv := ih.2 (by omega)
      rw [hv, ramp_down_step (by omega) (by omega)]
      constructor <;> intro _ <;> omega

/-- C7, as stated, fails: with `ctrl = 767` and `fb = 512` the target left by
lines 91-94 is -127, not 255, and the first pass of the loop body takes the
velocity from 0 to -1 with `dir = -1`, not to +1 with `dir = 1`. -/
theorem max_offset_counterexample :
    target 512 767 = -127 ∧ target 512 767 ≠ 255 ∧
      (runLoop 1 ({ initMachine 767 with fb := 512 }, 0)).2 = -1 ∧
      (runLoop 1 ({ initMachine 767 with fb := 512 }, 0)).2 ≠ 0 + 1 ∧
      (runLoop 1 ({ initMachine 767 with fb := 512 }, 0)).1.dir ≠ 1 := by
  decide

/-- C7, amended. With `ctrl = 767` and `fb = 512` held constant the target
velocity is -127; starting from velocity 0 the loop body lowers `v` by exactly
1 per pass, reaching -127 after 127 passes and holding -127 afterwards, with
`dir = -1` (reverse) after every pass. -/
theorem max_offset_scenario (s : Machine) (hfb : s.fb = 512) (hctrl : s.ctrl = 767)
    (k : Nat) :
    target s.fb s.ctrl = -127 ∧
    (k ≤ 127 → (runLoop k (s, 0)).2 = -(k : Int)) ∧
    (127 ≤ k → (runLoop k (s, 0)).2 = -127) ∧
    (1 ≤ k → (runLoop k (s, 0)).1.dir = -1) := by
  have hvel := runLoop_max_offset_velocity s hfb hctrl
  refine ⟨by rw [hfb, hctrl]; decide, fun h => (hvel k).1 (by omega),
    fun h => (hvel k).2 (by omega), ?_⟩
  intro hk
  obtain ⟨j, rfl⟩ : ∃ j, k = j + 1 := ⟨k - 1, by omega⟩
  rw [runLoop_succ_dir]
  have hlo : -127 ≤ (runLoop (j + 1) (s, 0)).2 ∧ (runLoop (j + 1) (s, 0)).2 ≤ -1 := by
    rcases Nat.lt_or_ge (j + 1) 127 with hj | hj
    · rw [(hvel (j + 1)).1 (by omega)]; push_cast; omega
    · rw [(hvel (j + 1)).2 (by omega)]; omega
  rw [setSpeed_neg _ (by omega) (by omega)]

theorem max_offset_scenario_witness :
    (({ initMachine 767 with fb := 512 } : Machine).fb = 512 ∧
      ({ initMachine 767 with fb := 512 } : Machine).ctrl = 767) ∧
      (runLoop 200 ({ initMachine 767 with fb := 512 }, 0)).2 = -127 ∧
      (runLoop 200 ({ initMachine 767 with fb := 512 }, 0)).1.dir = -1 :=
  ⟨by decide,
    (max_offset_scenario { initMachine 767 with fb := 512 } rfl rfl 200).2.2.1 (by decide),
    (max_offset_scenario { initMachine 767 with fb := 512 } rfl rfl 200).2.2.2 (by decide)⟩

/-- Ramping toward the target 0. -/
theorem ramp_zero_step {v : Int} (hv : -255 ≤ v ∧ v ≤ 255) :
    ramp 0 v = if 0 < v then v - 1 else if v < 0 then v + 1 else 0 := by
  rw [ramp_eq (by decide) hv]
  unfold limit; split_ifs <;> omega

theorem runLoop_zero_error_velocity (s : Machine) (hfb : s.fb = 512)
    (hctrl : s.ctrl = 512) (v0 : Int) (hv0 : -255 ≤ v0 ∧ v0 ≤ 255) (k : Nat) :
    (k ≤ v0.natAbs → 0 ≤ v0 → (runLoop k (s, v0)).2 = v0 - k) ∧
    (k ≤ v0.natAbs → v0 ≤ 0 → (runLoop k (s, v0)).2 = v0 + k) ∧
    (v0.natAbs ≤ k → (runLoop k (s, v0)).2 = 0) := by
  induction k with
  | zero =>
    refine ⟨fun _ _ => ?_, fun _ _ => ?_, fun h => ?_⟩
    · show v0 = v0 - ((0 : Nat) : Int); omega
    · show v0 = v0 + ((0 : Nat) : Int); omega
    · show v0 = 0; omega
  | succ k ih =>
    have ht : target s.fb s.ctrl = 0 := by rw [hfb, hctrl]; decide
    rw [runLoop_succ_velocity, ht]
    rcases Nat.lt_or_ge k v0.natAbs with hk | hk
    · rcases Int.le_total 0 v0 with hs | hs
      · rw [ih.1 (by omega) hs, ramp_zero_step (by omega)]
        split_ifs <;> refine ⟨?_, ?_, ?_⟩ <;> intros <;> push_cast <;> omega
      · rw [ih.2.1 (by omega) hs, ramp_zero_step (by omega)]
        split_ifs <;> refine ⟨?_, ?_, ?_⟩ <;> intros <;> push_cast <;> omega
    · rw [ih.2.2 hk, ramp_zero_step (by decide)]
      refine ⟨?_, ?_, ?_⟩ <;> intros <;> push_cast <;> omega

/-- C8. With `ctrl = 512` and `fb = 512` held constant the target velocity is
0; from every starting velocity `v0` in `[-255, 255]` the loop body moves `v`
toward 0 by exactly 1 per pass (after `k ≤ |v0|` passes `|v| = |v0| - k`, with
the sign of `v0` kept), so `v` is 0 after `|v0|` passes and stays 0, with
`dir = 0` after every pass from then on. -/
theorem zero_error_scenario (s : Machine) (hfb : s.fb = 512) (hctrl : s.ctrl = 512)
    (v0 : Int) (hv0 : -255 ≤ v0 ∧ v0 ≤ 255) (k : Nat) :
    target s.fb s.ctrl = 0 ∧
    ((k : Int) ≤ |v0| →
      |(runLoop k (s, v0)).2| = |v0| - k ∧
      (0 ≤ v0 → 0 ≤ (runLoop k (s, v0)).2) ∧ (v0 ≤ 0 → (runLoop k (s, v0)).2 ≤ 0)) ∧
    (|v0| ≤ (k : Int) → (runLoop k (s, v0)).2 = 0) ∧
    (|v0| ≤ (k : Int) → 1 ≤ k → (runLoop k (s, v0)).1.dir = 0) := by
  have hvel := runLoop_zero_error_velocity s hfb hctrl v0 hv0
  rw [Int.abs_eq_natAbs v0]
  refine ⟨by rw [hfb, hctrl]; decide, ?_, fun h => (hvel k).2.2 (by omega), ?_⟩
  · intro hk
    rw [Int.abs_eq_natAbs]
    rcases Int.le_total 0 v0 with hs | hs
    · rw [(hvel k).1 (by omega) hs]; omega
    · rw [(hvel k).2.1 (by omega) hs]; omega
  · intro hk h1
    obtain ⟨j, rfl⟩ : ∃ j, k = j + 1 := ⟨k - 1, by omega⟩
    rw [runLoop_succ_dir, (hvel (j + 1)).2.2 (by omega), setSpeed_zero]

theorem zero_error_scenario_witness :
    ((initMachine 512).fb = 512 ∧ (initMachine 512).ctrl = 512 ∧
      (-255 ≤ (-200 : Int) ∧ (-200 : Int) ≤ 255)) ∧
      |(runLoop 50 (initMachine 512, -200)).2| = |(-200 : Int)| - (50 : Nat) ∧
      (runLoop 201 (initMachine 512, -200)).2 = 0 ∧
      (runLoop 201 (initMachine 512, -200)).1.dir = 0 :=
  ⟨by decide,
    ((zero_error_scenario (initMachine 512) rfl rfl (-200) (by decide) 50).2.1
      (by decide)).1,
    (zero_error_scenario (initMachine 512) rfl rfl (-200) (by decide) 201).2.2.1
      (by decide),
    (zero_error_scenario (initMachine 512) rfl rfl (-200) (by decide) 201).2.2.2
      (by decide) (by decide)⟩

/-! ## The timer-compare handler -/

/-- Bit `i` of the register after `SetBit(b, PORT)`. -/
theorem SetBit_testBit (b p i : Nat) :
    (SetBit b p).testBit i = (decide (i < 8) && (p.testBit i || decide (b = i))) := by
  unfold SetBit wrapUInt8
  rw [show (256 : Nat) = 2 ^ 8 from rfl, Nat.testBit_mod_two_pow, Nat.testBit_or,
    Nat.one_shiftLeft, Nat.testBit_two_pow]

/-- Bit `i` of the register after `ClearBit(b, PORT)`. -/
theorem ClearBit_testBit (b p i : Nat) (hb : b < 16) :
    (ClearBit b p).testBit i = (decide (i < 8) && (p.testBit i && !decide (b = i))) := by
  have hlt : 2 ^ b < 2 ^ 16 := Nat.pow_lt_pow_right (by decide) hb
  have hm : 65535 - 2 ^ b = 2 ^ 16 - (2 ^ b + 1) := by
    have : (2 : Nat) ^ 16 = 65536 := by decide
    omega
  unfold ClearBit wrapUInt8
  rw [show (256 : Nat) = 2 ^ 8 from rfl, Nat.testBit_mod_two_pow, Nat.testBit_and,
    Nat.one_shiftLeft, hm, Nat.testBit_two_pow_sub_succ hlt, Nat.testBit_two_pow]
  by_cases h8 : i < 8
  · have h16 : i < 16 := by omega
    simp [h8, h16]
  · simp [h8]

theorem SetBit_STEPBIT_testBit (p : Nat) : (SetBit STEPBIT p).testBit STEPBIT = true := by
  rw [SetBit_testBit]; simp [STEPBIT]

theorem ClearBit_STEPBIT_testBit (p : Nat) :
    (ClearBit STEPBIT p).testBit STEPBIT = false := by
  rw [ClearBit_testBit _ _ _ (by decide)]; simp [STEPBIT]

theorem TIM0_COMPA_vect_reverse (s : Machine) (hdir : s.dir = -1) :
    TIM0_COMPA_vect s =
      { s with OCR0A := wrapUInt8 s.rate,
               PORTB := ClearBit STEPBIT (SetBit STEPBIT (ClearBit DIRBIT s.PORTB)),
               fb := wrapInt16 (s.fb - -1) } := by
  simp [TIM0_COMPA_vect, hdir]

theorem TIM0_COMPA_portWrites_reverse (s : Machine) (hdir : s.dir = -1) :
    TIM0_COMPA_portWrites s =
      [ClearBit DIRBIT s.PORTB, SetBit STEPBIT (ClearBit DIRBIT s.PORTB),
        ClearBit STEPBIT (SetBit STEPBIT (ClearBit DIRBIT s.PORTB))] := by
  simp [TIM0_COMPA_portWrites, hdir]

/-- C10, as stated, fails: in a state with `dir = -1` and `fb = 0` one run of
the timer-compare handler leaves `fb = 1`, not `fb - 1 = -1`. -/
theorem reverse_step_counterexample :
    ({ initMachine 0 with dir := -1 } : Machine).dir = -1 ∧
      (TIM0_COMPA_vect { initMachine 0 with dir := -1 }).fb = 1 ∧
      (TIM0_COMPA_vect { initMachine 0 with dir := -1 }).fb
        ≠ ({ initMachine 0 with dir := -1 } : Machine).fb - 1 := by
  decide

/-- C10, amended. For every state with `dir = -1` (reverse) and `fb` a 16-bit
value, one run of the timer-compare handler emits a step pulse (after the
write of the direction line it writes the step line high, then low) and
increases the accumulator `fb` by exactly 1 (`fb - dir`, wrapping from 32767
to -32768). -/
theorem reverse_step (s : Machine) (hdir : s.dir = -1)
    (hfb : -32768 ≤ s.fb ∧ s.fb ≤ 32767) :
    (∃ p1 p2 p3, TIM0_COMPA_portWrites s = [p1, p2, p3] ∧
      p2.testBit STEPBIT = true ∧ p3.testBit STEPBIT = false ∧
      (TIM0_COMPA_vect s).PORTB = p3) ∧
    (TIM0_COMPA_vect s).fb = wrapInt16 (s.fb + 1) ∧
    (s.fb < 32767 → (TIM0_COMPA_vect s).fb = s.fb + 1) ∧
    (s.fb = 32767 → (TIM0_COMPA_vect s).fb = -32768) := by
  rw [TIM0_COMPA_vect_reverse s hdir, TIM0_COMPA_portWrites_reverse s hdir]
  refine ⟨⟨_, _, _, rfl, SetBit_STEPBIT_testBit _, ClearBit_STEPBIT_testBit _, rfl⟩, ?_, ?_, ?_⟩
  · show wrapInt16 (s.fb - -1) = wrapInt16 (s.fb + 1)
    rw [Int.sub_neg]
  · intro h
    show wrapInt16 (s.fb - -1) = s.fb + 1
    rw [Int.sub_neg]
    exact wrapInt16_eq_self (by omega) (by omega)
  · intro h
    show wrapInt16 (s.fb - -1) = -32768
    rw [h]; decide

theorem reverse_step_witness :
    (({ initMachine 40 with dir := -1 } : Machine).dir = -1 ∧
      -32768 ≤ ({ initMachine 40 with dir := -1 } : Machine).fb ∧
      ({ initMachine 40 with dir := -1 } : Machine).fb ≤ 32767) ∧
      (TIM0_COMPA_vect { initMachine 40 with dir := -1 }).fb = 41 :=
  ⟨by decide,
    (reverse_step { initMachine 40 with dir := -1 } rfl (by decide)).2.2.1 (by decide)⟩

/-! ## The timer-compare handler: contract -/

theorem TIM0_COMPA_vect_stopped (s : Machine) (hdir : s.dir = 0) :
    TIM0_COMPA_vect s = { s with OCR0A := wrapUInt8 s.rate } := by
  simp [TIM0_COMPA_vect, hdir]

theorem TIM0_COMPA_vect_forward (s : Machine) (hdir : s.dir = 1) :
    TIM0_COMPA_vect s =
      { s with OCR0A := wrapUInt8 s.rate,
               PORTB := ClearBit STEPBIT (SetBit STEPBIT (SetBit DIRBIT s.PORTB)),
               fb := wrapInt16 (s.fb - 1) } := by
  simp [TIM0_COMPA_vect, hdir]

theorem TIM0_COMPA_portWrites_forward (s : Machine) (hdir : s.dir = 1) :
    TIM0_COMPA_portWrites s =
      [SetBit DIRBIT s.PORTB, SetBit STEPBIT (SetBit DIRBIT s.PORTB),
        ClearBit STEPBIT (SetBit STEPBIT (SetBit DIRBIT s.PORTB))] := by
  simp [TIM0_COMPA_portWrites, hdir]

/-- C11. Timer-compare handler contract: in every state the handler loads the
8-bit period register `OCR0A` with the current `rate` (exactly `rate` whenever
it fits the register); if `dir = 0` it changes nothing else and writes nothing
to the port; if `dir` is 1 or -1 it sets `fb` to `fb - dir` in 16 bits and
leaves `ctrl`, `dir`, `rate`, `waitCount` and `ADMUX` as they were. -/
theorem timer_handler_contract (s : Machine) :
    (TIM0_COMPA_vect s).OCR0A = wrapUInt8 s.rate ∧
    (s.rate ≤ 255 → (TIM0_COMPA_vect s).OCR0A = s.rate) ∧
    (s.dir = 0 →
      TIM0_COMPA_vect s = { s with OCR0A := wrapUInt8 s.rate } ∧
      (TIM0_COMPA_vect s).fb = s.fb ∧ (TIM0_COMPA_vect s).PORTB = s.PORTB ∧
      TIM0_COMPA_portWrites s = []) ∧
    (s.dir = 1 ∨ s.dir = -1 →
      (TIM0_COMPA_vect s).fb = wrapInt16 (s.fb - s.dir) ∧
      (TIM0_COMPA_vect s).ctrl = s.ctrl ∧ (TIM0_COMPA_vect s).dir = s.dir ∧
      (TIM0_COMPA_vect s).rate = s.rate ∧ (TIM0_COMPA_vect s).waitCount = s.waitCount ∧
      (TIM0_COMPA_vect s).ADMUX = s.ADMUX) := by
  refine ⟨?_, ?_, ?_, ?_⟩
  · rw [TIM0_COMPA_vect_OCR0A]; rfl
  · intro h
    rw [TIM0_COMPA_vect_OCR0A]
    omega
  · intro h
    rw [TIM0_COMPA_vect_stopped s h]
    refine ⟨rfl, rfl, rfl, ?_⟩
    simp [TIM0_COMPA_portWrites, h]
  · rintro (h | h)
    · rw [TIM0_COMPA_vect_forward s h, h]
      exact ⟨rfl, rfl, rfl, rfl, rfl, rfl⟩
    · rw [TIM0_COMPA_vect_reverse s h, h]
      exact ⟨rfl, rfl, rfl, rfl, rfl, rfl⟩

theorem timer_handler_contract_witness :
    (TIM0_COMPA_vect { initMachine 7 with dir := 1, rate := 60 }).OCR0A = 60 ∧
      (TIM0_COMPA_vect { initMachine 7 with dir := 1, rate := 60 }).fb
        = wrapInt16 (({ initMachine 7 with dir := 1, rate := 60 } : Machine).fb
            - ({ initMachine 7 with dir := 1, rate := 60 } : Machine).dir) :=
  ⟨(timer_handler_contract { initMachine 7 with dir := 1, rate := 60 }).2.1 (by decide),
    ((timer_handler_contract { initMachine 7 with dir := 1, rate := 60 }).2.2.2
      (Or.inl rfl)).1⟩

/-! ## The conversion-complete handler and the barrier -/

theorem ADC_vect_ctrl (s : Machine) (r : Nat) :
    (ADC_vect s r).ctrl = wrapInt16 (((r + 512) % 65536 : Nat) : Int) := by
  unfold ADC_vect
  simp only []
  split_ifs <;> rfl

theorem ADC_vect_ctrl_of_le (s : Machine) {r : Nat} (hr : r ≤ 1023) :
    (ADC_vect s r).ctrl = (r : Int) + 512 := by
  rw [ADC_vect_ctrl]
  unfold wrapInt16
  omega

theorem ADC_vect_waitCount (s : Machine) (r : Nat) :
    (ADC_vect s r).waitCount
      = if s.waitCount ≠ 0 then wrapUInt8 (s.waitCount - 1) else s.waitCount := by
  unfold ADC_vect
  simp only []
  split_ifs <;> rfl

/-- C12, as stated, fails: the mid-scale reading 512 is stored as 1024, not
0, and the reading 0 is stored as 512, which is outside `[-512, 511]`. -/
theorem adc_remap_counterexample :
    (ADC_vect (initMachine 0) 512).ctrl = 1024 ∧
      (ADC_vect (initMachine 0) 512).ctrl ≠ 0 ∧
      (ADC_vect (initMachine 0) 0).ctrl = 512 ∧
      ¬ (ADC_vect (initMachine 0) 0).ctrl ≤ 511 := by
  decide

/-- C12, amended. For every reading `r` in `0..1023` the conversion-complete
handler stores `ctrl = r + 512`: the stored setpoint lies in `[512, 1535]`, the
mid-scale reading 512 is stored as 1024, and the store is unconditional (the
state before the event has no influence on the new `ctrl`). -/
theorem adc_remap (s : Machine) (r : Nat) (hr : r ≤ 1023) :
    (ADC_vect s r).ctrl = (r : Int) + 512 ∧
    512 ≤ (ADC_vect s r).ctrl ∧ (ADC_vect s r).ctrl ≤ 1535 ∧
    (r = 512 → (ADC_vect s r).ctrl = 1024) ∧
    (∀ s2 : Machine, (ADC_vect s2 r).ctrl = (ADC_vect s r).ctrl) := by
  have h := ADC_vect_ctrl_of_le s hr
  refine ⟨h, by omega, by omega, fun h5 => by omega, fun s2 => ?_⟩
  rw [h, ADC_vect_ctrl_of_le s2 hr]

theorem adc_remap_witness :
    (1023 ≤ 1023) ∧ (ADC_vect { initMachine 900 with waitCount := 2 } 1023).ctrl = 1535 :=
  ⟨by decide, (adc_remap { initMachine 900 with waitCount := 2 } 1023 (by decide)).1⟩

theorem adcEvents_waitCount (samples : List Nat) :
    ∀ s : Machine, s.waitCount ≤ 255 →
      (adcEvents s samples).waitCount = s.waitCount - samples.length := by
  induction samples with
  | nil => intro s _; rfl
  | cons a rest ih =>
    intro s hs
    have hw := ADC_vect_waitCount s a
    unfold wrapUInt8 at hw
    show (adcEvents (ADC_vect s a) rest).waitCount = _
    rw [ih (ADC_vect s a) (by rw [hw]; split_ifs <;> omega), hw, List.length_cons]
    split_ifs <;> omega

/-- C13. The barrier counts exactly two samples: `waitCalcLoop` arms
`waitCount` to 2; each conversion-complete event decrements a nonzero
`waitCount` by 1 and leaves a zero one at 0; so after arming the count is
`2 - k` after `k` events (nonzero for `k < 2`, zero for every `k ≥ 2`), the
loop is still spinning when fewer than two events have arrived, and it exits
exactly at the second event, leaving the later ones unconsumed. -/
theorem barrier_counts_two_samples (s : Machine) :
    (∀ samples, waitCalcLoop s samples
      = waitCalcLoop.spin { s with waitCount := 2 } samples) ∧
    (∀ (m : Machine) (a : Nat), m.waitCount ≤ 255 →
      (m.waitCount ≠ 0 → (ADC_vect m a).waitCount = m.waitCount - 1) ∧
      (m.waitCount = 0 → (ADC_vect m a).waitCount = 0)) ∧
    (∀ samples : List Nat,
      (adcEvents { s with waitCount := 2 } samples).waitCount = 2 - samples.length ∧
      (samples.length < 2 → (adcEvents { s with waitCount := 2 } samples).waitCount ≠ 0) ∧
      (2 ≤ samples.length → (adcEvents { s with waitCount := 2 } samples).waitCount = 0)) ∧
    waitCalcLoop s [] = none ∧
    (∀ a, waitCalcLoop s [a] = none) ∧
    (∀ a b rest, waitCalcLoop s (a :: b :: rest)
      = some (adcEvents { s with waitCount := 2 } [a, b], rest) ∧
      (adcEvents { s with waitCount := 2 } [a, b]).waitCount = 0) := by
  have hev : ∀ samples : List Nat,
      (adcEvents { s with waitCount := 2 } samples).waitCount = 2 - samples.length :=
    fun samples => adcEvents_waitCount samples { s with waitCount := 2 }
      (show (2 : Nat) ≤ 255 by decide)
  refine ⟨fun _ => rfl, ?_, ?_, ?_, ?_, ?_⟩
  · intro m a hm
    rw [ADC_vect_waitCount]
    unfold wrapUInt8
    constructor
    · intro h
      rw [if_pos h]
      omega
    · intro h
      rw [if_neg (not_not.mpr h)]
      exact h
  · intro samples
    rw [hev samples]
    exact ⟨rfl, by omega, by omega⟩
  · simp [waitCalcLoop, waitCalcLoop.spin]
  · intro a
    simp [waitCalcLoop, waitCalcLoop.spin, ADC_vect, wrapUInt8]
  · intro a b rest
    refine ⟨?_, hev [a, b]⟩
    cases rest <;>
      simp [waitCalcLoop, waitCalcLoop.spin, adcEvents, ADC_vect, wrapUInt8]

theorem barrier_counts_two_samples_witness :
    ({ initMachine 0 with waitCount := 2 } : Machine).waitCount ≤ 255 ∧
      (ADC_vect { initMachine 0 with waitCount := 2 } 300).waitCount = 2 - 1 ∧
      waitCalcLoop (initMachine 0) [300, 301, 302]
        = some (adcEvents { initMachine 0 with waitCount := 2 } [300, 301], [302]) :=
  ⟨by decide,
    ((barrier_counts_two_samples (initMachine 0)).2.1
      { initMachine 0 with waitCount := 2 } 300 (by decide)).1 (by decide),
    ((barrier_counts_two_samples (initMachine 0)).2.2.2.2.2 300 301 [302]).1⟩

/-! ## Absence of overflow -/

theorem wrapInt16_bounds (x : Int) : -32768 ≤ wrapInt16 x ∧ wrapInt16 x ≤ 32767 := by
  unfold wrapInt16; omega

/-- The three operations of lines 140-142 on a magnitude `m` in `1..255`,
with their exact values. -/
theorem rate_conversion_intermediates {m : Int} (h1 : 1 ≤ m) (h2 : m ≤ 255) :
    [m * 49, 16335 - wrapInt16 (m * 49),
        Int.tdiv (wrapInt16 (16335 - wrapInt16 (m * 49))) 64]
      = [49 * m, 16335 - 49 * m, Int.tdiv (16335 - 49 * m) 64] := by
  have hc : m * 49 = 49 * m := Int.mul_comm _ _
  have e1 : wrapInt16 (49 * m) = 49 * m := wrapInt16_eq_self (by omega) (by omega)
  have e2 : wrapInt16 (16335 - 49 * m) = 16335 - 49 * m :=
    wrapInt16_eq_self (by omega) (by omega)
  rw [hc, e1, e2]

theorem tdiv_64_eq_ediv {m : Int} (h1 : 1 ≤ m) (h2 : m ≤ 255) :
    Int.tdiv (16335 - 49 * m) 64 = (16335 - 49 * m) / 64 :=
  Int.tdiv_eq_ediv (by omega) (by decide)

theorem setSpeedIntermediates_pos {v : Int} (h1 : 1 ≤ v) (h2 : v ≤ 255) :
    setSpeedIntermediates v = [49 * v, 16335 - 49 * v, Int.tdiv (16335 - 49 * v) 64] := by
  have hn : ¬ v < 0 := by omega
  have hz : ¬ v = 0 := by omega
  simp only [setSpeedIntermediates, hn, hz, if_false, List.nil_append,
    rate_conversion_intermediates h1 h2]

theorem setSpeedIntermediates_neg {v : Int} (h1 : -255 ≤ v) (h2 : v ≤ -1) :
    setSpeedIntermediates v
      = [-v, 49 * (-v), 16335 - 49 * (-v), Int.tdiv (16335 - 49 * (-v)) 64] := by
  have hn : v < 0 := by omega
  have e : wrapInt16 (-v) = -v := wrapInt16_eq_self (by omega) (by omega)
  have hz : ¬ (-v) = 0 := by omega
  simp only [setSpeedIntermediates, hn, if_true, e, hz, if_false,
    rate_conversion_intermediates (show 1 ≤ -v by omega) (show -v ≤ 255 by omega)]
  rfl

theorem setSpeedIntermediates_zero : setSpeedIntermediates 0 = [] := by
  decide

/-- The rate written by `setSpeed(v)` as a truncating quotient. -/
theorem setSpeed_rate_tdiv (s : Machine) {v : Int} (hv : -255 ≤ v ∧ v ≤ 255) (h0 : v ≠ 0) :
    ((setSpeed s v).rate : Int) = Int.tdiv (16335 - 49 * |v|) 64 := by
  rw [setSpeed_rate s hv h0, Int.abs_eq_natAbs,
    Int.tdiv_eq_ediv (by omega) (by decide)]
  omega

/-- C14. Rate conversion cannot overflow: for every `v` in `[-255, 255]` each
intermediate value of `setSpeed(v)` (`-v`, `49 * |v|`, `16335 - 49 * |v|` and
the quotient by 64) lies in the signed 16-bit range, `16335 - 49 * |v|` is
positive, and the rate written is the quotient; for `v = 255` and `v = -255`
the rate is 60 and for `|v| = 1` it is 254. -/
theorem rate_conversion_no_overflow (v : Int) (hv : -255 ≤ v ∧ v ≤ 255) :
    (∀ x ∈ setSpeedIntermediates v, -32768 ≤ x ∧ x ≤ 32767) ∧
    (v ≠ 0 →
      setSpeedIntermediates v
        = (if v < 0 then [-v] else []) ++
            [49 * |v|, 16335 - 49 * |v|, Int.tdiv (16335 - 49 * |v|) 64] ∧
      0 < 16335 - 49 * |v| ∧
      ∀ s : Machine, ((setSpeed s v).rate : Int) = Int.tdiv (16335 - 49 * |v|) 64) ∧
    (∀ s : Machine, (setSpeed s 255).rate = 60 ∧ (setSpeed s (-255)).rate = 60 ∧
      (setSpeed s 1).rate = 254 ∧ (setSpeed s (-1)).rate = 254) := by
  refine ⟨?_, ?_, ?_⟩
  · rcases Int.lt_trichotomy v 0 with h | h | h
    · rw [setSpeedIntermediates_neg hv.1 (by omega),
        tdiv_64_eq_ediv (show 1 ≤ -v by omega) (show -v ≤ 255 by omega)]
      intro x hx
      simp only [List.mem_cons, List.mem_singleton, List.not_mem_nil, or_false] at hx
      rcases hx with rfl | rfl | rfl | rfl <;> omega
    · subst h
      rw [setSpeedIntermediates_zero]
      intro x hx
      exact absurd hx (List.not_mem_nil x)
    · rw [setSpeedIntermediates_pos (by omega) hv.2, tdiv_64_eq_ediv (by omega) hv.2]
      intro x hx
      simp only [List.mem_cons, List.mem_singleton, List.not_mem_nil, or_false] at hx
      rcases hx with rfl | rfl | rfl <;> omega
  · intro h0
    refine ⟨?_, ?_, fun s => setSpeed_rate_tdiv s hv h0⟩
    · rcases Int.lt_or_gt_of_ne h0 with h | h
      · rw [setSpeedIntermediates_neg hv.1 (by omega), if_pos h, abs_of_neg h]
        rfl
      · rw [setSpeedIntermediates_pos (by omega) hv.2, if_neg (by omega), abs_of_pos h]
        rfl
    · rw [Int.abs_eq_natAbs]; omega
  · intro s
    refine ⟨?_, ?_, ?_, ?_⟩
    · rw [setSpeed_rate s (by decide) (by decide)]; rfl
    · rw [setSpeed_rate s (by decide) (by decide)]; rfl
    · rw [setSpeed_rate s (by decide) (by decide)]; rfl
    · rw [setSpeed_rate s (by decide) (by decide)]; rfl

theorem rate_conversion_no_overflow_witness :
    (-255 ≤ (-255 : Int) ∧ (-255 : Int) ≤ 255) ∧
      (∀ x ∈ setSpeedIntermediates (-255), -32768 ≤ x ∧ x ≤ 32767) ∧
      setSpeedIntermediates (-255) = [255, 12495, 3840, 60] :=
  ⟨by decide, (rate_conversion_no_overflow (-255) (by decide)).1, by decide⟩

theorem tdiv_two_bounds {x : Int} (hx : -32768 ≤ x ∧ x ≤ 32767) :
    -32768 ≤ Int.tdiv x 2 ∧ Int.tdiv x 2 ≤ 32767 := by
  rw [tdiv_two]
  split_ifs <;> omega

/-- C15, as stated, fails: `fb = -32768` is a 16-bit value and 512 is the
setpoint the sampler stores for the reading 0, but the difference
`fb - ctrl = -33280` is below the signed 16-bit range. -/
theorem error_overflow_counterexample :
    (-32768 ≤ (-32768 : Int) ∧ (-32768 : Int) ≤ 32767) ∧
      (ADC_vect (initMachine 0) 0).ctrl = 512 ∧
      targetIntermediates (-32768) (ADC_vect (initMachine 0) 0).ctrl = [-33280, 16128] ∧
      ¬ (∀ x ∈ targetIntermediates (-32768) (ADC_vect (initMachine 0) 0).ctrl,
          -32768 ≤ x ∧ x ≤ 32767) := by
  decide

/-- C15, amended. For every 16-bit `fb` and every setpoint `ctrl` the sampler
can store (a reading in `0..1023` plus 512), the intermediate values of the
error computation (`fb - ctrl`, then the halving) lie in the signed 16-bit
range exactly when `fb ≥ ctrl - 32768`; in particular they do for every
`fb ≥ -31233`, whatever the setpoint. -/
theorem error_no_overflow (s : Machine) (r : Nat) (hr : r ≤ 1023) (fb : Int)
    (hfb : -32768 ≤ fb ∧ fb ≤ 32767) :
    ((∀ x ∈ targetIntermediates fb (ADC_vect s r).ctrl, -32768 ≤ x ∧ x ≤ 32767)
      ↔ (ADC_vect s r).ctrl - 32768 ≤ fb) ∧
    (-31233 ≤ fb →
      ∀ x ∈ targetIntermediates fb (ADC_vect s r).ctrl, -32768 ≤ x ∧ x ≤ 32767) := by
  rw [ADC_vect_ctrl_of_le s hr]
  have hall : (r : Int) + 512 - 32768 ≤ fb →
      ∀ x ∈ targetIntermediates fb ((r : Int) + 512), -32768 ≤ x ∧ x ≤ 32767 := by
    intro h x hx
    simp only [targetIntermediates, List.mem_cons, List.mem_singleton, List.not_mem_nil,
      or_false] at hx
    rcases hx with rfl | rfl
    · omega
    · exact tdiv_two_bounds (wrapInt16_bounds _)
  refine ⟨⟨fun h => ?_, hall⟩, fun h => hall (by omega)⟩
  have h1 := h (fb - ((r : Int) + 512)) (by simp [targetIntermediates])
  omega

theorem error_no_overflow_witness :
    (1023 ≤ 1023 ∧ (-32768 ≤ (-31233 : Int) ∧ (-31233 : Int) ≤ 32767)) ∧
      (∀ x ∈ targetIntermediates (-31233) (ADC_vect (initMachine 0) 1023).ctrl,
        -32768 ≤ x ∧ x ≤ 32767) :=
  ⟨by decide,
    (error_no_overflow (initMachine 0) 1023 (by decide) (-31233) (by decide)).2 (by decide)⟩

/-! ## The postcondition of `setSpeed` on the rate -/

/-- C17. For every nonzero `v` in `[-255, 255]`, `setSpeed(v)` sets `rate` to
`(16335 - 49 * |v|) / 64` with truncating division, so `setSpeed(v)` and
`setSpeed(-v)` write the same rate; for `v = 0` it sets `dir = 0` and leaves
`rate` as it was before the call. -/
theorem setSpeed_rate_postcondition (s : Machine) (v : Int) (hv : -255 ≤ v ∧ v ≤ 255) :
    (v ≠ 0 →
      ((setSpeed s v).rate : Int) = Int.tdiv (16335 - 49 * |v|) 64 ∧
      (setSpeed s (-v)).rate = (setSpeed s v).rate) ∧
    (v = 0 → (setSpeed s v).dir = 0 ∧ (setSpeed s v).rate = s.rate) := by
  constructor
  · intro h0
    refine ⟨setSpeed_rate_tdiv s hv h0, ?_⟩
    rw [setSpeed_rate s hv h0, setSpeed_rate s (v := -v) (by omega) (by omega),
      Int.natAbs_neg]
  · intro h0
    subst h0
    rw [setSpeed_zero]
    exact ⟨rfl, rfl⟩

theorem setSpeed_rate_postcondition_witness :
    (-255 ≤ (-100 : Int) ∧ (-100 : Int) ≤ 255) ∧
      ((setSpeed (initMachine 0) (-100)).rate : Int)
        = Int.tdiv (16335 - 49 * |(-100 : Int)|) 64 ∧
      (setSpeed (initMachine 0) (-(-100))).rate = (setSpeed (initMachine 0) (-100)).rate :=
  ⟨by decide,
    ((setSpeed_rate_postcondition (initMachine 0) (-100) (by decide)).1 (by decide)).1,
    ((setSpeed_rate_postcondition (initMachine 0) (-100) (by decide)).1 (by decide)).2⟩

/-! ## The publication of `dir` and `rate` -/

/-- The function `setSpeed` writes no variable other than `dir` and `rate`. -/
theorem setSpeed_frame (s : Machine) (v : Int) :
    setSpeed s v = { s with dir := (setSpeed s v).dir, rate := (setSpeed s v).rate } := by
  unfold setSpeed
  simp only []
  split_ifs <;> rfl

/-- The effect of `setSpeed(v)` is that of one store to `dir` and one store to
`rate`. -/
theorem setSpeed_as_stores (s : Machine) (v : Int) :
    applyStores s [Store.dir (setSpeed s v).dir, Store.rate (setSpeed s v).rate]
      = setSpeed s v :=
  (setSpeed_frame s v).symm

theorem mem_observedDuring_self (s : Machine) (l : List Store) :
    s ∈ observedDuring s l := by
  cases l <;> simp [observedDuring]

theorem observedDuring_head (s : Machine) (l : List Store) :
    (observedDuring s l).head? = some s := by
  cases l <;> rfl

theorem observedDuring_getLast (l : List Store) :
    ∀ s : Machine, (observedDuring s l).getLast? = some (applyStores s l) := by
  induction l with
  | nil => intro s; rfl
  | cons st rest ih =>
    intro s
    have h := ih (Store.apply s st)
    show (s :: observedDuring (Store.apply s st) rest).getLast?
      = some (applyStores (Store.apply s st) rest)
    rw [← h]
    cases rest <;> rfl

/-- A sequence of stores that changes both `dir` and `rate` passes through a
state in which exactly one of the two has changed. -/
theorem observedDuring_mixed (l : List Store) :
    ∀ s : Machine, (applyStores s l).dir ≠ s.dir → (applyStores s l).rate ≠ s.rate →
      ∃ m ∈ observedDuring s l,
        (m.dir ≠ s.dir ∧ m.rate = s.rate) ∨ (m.dir = s.dir ∧ m.rate ≠ s.rate) := by
  induction l with
  | nil => intro s hd _; exact absurd rfl hd
  | cons st rest ih =>
    intro s hd hr
    have hmem : ∀ m, m ∈ observedDuring (Store.apply s st) rest →
        m ∈ observedDuring s (st :: rest) := fun m hm => List.mem_cons_of_mem _ hm
    cases st with
    | dir d =>
      by_cases h : d = s.dir
      · obtain ⟨m, hm, hmix⟩ := ih (Store.apply s (Store.dir d))
          (fun e => hd (e.trans h)) hr
        exact ⟨m, hmem m hm, by
          rcases hmix with ⟨h1, h2⟩ | ⟨h1, h2⟩
          · exact Or.inl ⟨fun e => h1 (e.trans h.symm), h2⟩
          · exact Or.inr ⟨h1.trans h, h2⟩⟩
      · exact ⟨Store.apply s (Store.dir d), hmem _ (mem_observedDuring_self _ _),
          Or.inl ⟨h, rfl⟩⟩
    | rate r =>
      by_cases h : r = s.rate
      · obtain ⟨m, hm, hmix⟩ := ih (Store.apply s (Store.rate r)) hd
          (fun e => hr (e.trans h))
        exact ⟨m, hmem m hm, by
          rcases hmix with ⟨h1, h2⟩ | ⟨h1, h2⟩
          · exact Or.inl ⟨h1, h2.trans h⟩
          · exact Or.inr ⟨h1, fun e => h2 (e.trans h.symm)⟩⟩
      · exact ⟨Store.apply s (Store.rate r), hmem _ (mem_observedDuring_self _ _),
          Or.inr ⟨rfl, h⟩⟩

/-- C16, as stated, fails. At start-up the pair `(dir, rate)` is `(0, 255)`
and the first call `setSpeed(1)` leaves `(1, 254)`.  For `v = 1` the source
executes two stores, `dir = 1` (line 129) and `rate = v` (line 143); between
them the pair is `(1, 255)`, the new `dir` with the old rate.  Whatever the
sequence of individual stores that carries out this call, a handler running
between them can observe a pair that is neither `(0, 255)` nor `(1, 254)`. -/
theorem pair_publication_counterexample :
    ((initMachine 512).dir, (initMachine 512).rate) = (0, 255) ∧
      ((setSpeed (initMachine 512) 1).dir, (setSpeed (initMachine 512) 1).rate)
        = (1, 254) ∧
      applyStores (initMachine 512) [Store.dir 1, Store.rate 254]
        = setSpeed (initMachine 512) 1 ∧
      (observedDuring (initMachine 512) [Store.dir 1, Store.rate 254]).map
        (fun m => (m.dir, m.rate)) = [(0, 255), (1, 255), (1, 254)] ∧
      (∀ l : List Store, applyStores (initMachine 512) l = setSpeed (initMachine 512) 1 →
        ∃ m ∈ observedDuring (initMachine 512) l,
          (m.dir, m.rate) ≠ ((initMachine 512).dir, (initMachine 512).rate) ∧
          (m.dir, m.rate)
            ≠ ((setSpeed (initMachine 512) 1).dir, (setSpeed (initMachine 512) 1).rate)) := by
  refine ⟨by decide, by decide, by decide, by decide, fun l hl => ?_⟩
  have hd : (applyStores (initMachine 512) l).dir ≠ (initMachine 512).dir := by
    rw [hl]; decide
  have hr : (applyStores (initMachine 512) l).rate ≠ (initMachine 512).rate := by
    rw [hl]; decide
  obtain ⟨m, hm, hmix⟩ := observedDuring_mixed l (initMachine 512) hd hr
  have e1 : (initMachine 512).dir = 0 := rfl
  have e2 : (initMachine 512).rate = 255 := rfl
  have e3 : (setSpeed (initMachine 512) 1).dir = 1 := by decide
  have e4 : (setSpeed (initMachine 512) 1).rate = 254 := by decide
  rw [e1, e2] at hmix
  rw [e1, e2, e3, e4]
  refine ⟨m, hm, ?_, ?_⟩
  · rcases hmix with ⟨h1, _⟩ | ⟨_, h2⟩
    · exact fun e => h1 (congrArg Prod.fst e)
    · exact fun e => h2 (congrArg Prod.snd e)
  · rcases hmix with ⟨_, h2⟩ | ⟨h1, _⟩
    · intro e
      have := congrArg Prod.snd e
      simp only [h2] at this
      exact absurd this (by decide)
    · intro e
      have := congrArg Prod.fst e
      simp only [h1] at this
      exact absurd this (by decide)

/-- C16, amended. Publication of `(dir, rate)` is not atomic: `setSpeed(v)`
writes only `dir` and `rate`, one variable per store.  With the call carried
out as any sequence of individual stores to `dir` and `rate` whose combined
effect is that of `setSpeed(v)`, and a handler allowed to run before, between
and after the stores, the handler observes first the state before the call and
last the state after it, and whenever the call changes both `dir` and `rate`
it can observe a state in which exactly one of the two has changed, a pair
that is neither the pair before the call nor the pair after it. -/
theorem publication_not_atomic (s : Machine) (v : Int) (l : List Store)
    (hl : applyStores s l = setSpeed s v)
    (hdir : (setSpeed s v).dir ≠ s.dir) (hrate : (setSpeed s v).rate ≠ s.rate) :
    setSpeed s v = { s with dir := (setSpeed s v).dir, rate := (setSpeed s v).rate } ∧
    (observedDuring s l).head? = some s ∧
    (observedDuring s l).getLast? = some (setSpeed s v) ∧
    ∃ m ∈ observedDuring s l,
      ((m.dir ≠ s.dir ∧ m.rate = s.rate) ∨ (m.dir = s.dir ∧ m.rate ≠ s.rate)) ∧
      (m.dir, m.rate) ≠ (s.dir, s.rate) ∧
      (m.dir, m.rate) ≠ ((setSpeed s v).dir, (setSpeed s v).rate) := by
  refine ⟨setSpeed_frame s v, observedDuring_head s l, ?_, ?_⟩
  · rw [observedDuring_getLast, hl]
  · obtain ⟨m, hm, hmix⟩ := observedDuring_mixed l s (by rw [hl]; exact hdir)
      (by rw [hl]; exact hrate)
    refine ⟨m, hm, hmix, ?_, ?_⟩
    · rcases hmix with ⟨h1, _⟩ | ⟨_, h2⟩
      · exact fun e => h1 (congrArg Prod.fst e)
      · exact fun e => h2 (congrArg Prod.snd e)
    · rcases hmix with ⟨_, h2⟩ | ⟨h1, _⟩
      · exact fun e => hrate ((congrArg Prod.snd e).symm.trans h2)
      · exact fun e => hdir ((congrArg Prod.fst e).symm.trans h1)

theorem publication_not_atomic_witness :
    (applyStores (initMachine 512) [Store.dir 1, Store.rate 254]
        = setSpeed (initMachine 512) 1 ∧
      (setSpeed (initMachine 512) 1).dir ≠ (initMachine 512).dir ∧
      (setSpeed (initMachine 512) 1).rate ≠ (initMachine 512).rate) ∧
      ∃ m ∈ observedDuring (initMachine 512) [Store.dir 1, Store.rate 254],
        ((m.dir ≠ (initMachine 512).dir ∧ m.rate = (initMachine 512).rate) ∨
          (m.dir = (initMachine 512).dir ∧ m.rate ≠ (initMachine 512).rate)) ∧
        (m.dir, m.rate) ≠ ((initMachine 512).dir, (initMachine 512).rate) ∧
        (m.dir, m.rate)
          ≠ ((setSpeed (initMachine 512) 1).dir, (setSpeed (initMachine 512) 1).rate) :=
  ⟨by decide,
    (publication_not_atomic (initMachine 512) 1 [Store.dir 1, Store.rate 254]
      (by decide) (by decide) (by decide)).2.2.2⟩

/-! ## The port writes of the timer-compare handler -/

theorem TIM0_COMPA_vect_PORTB (s : Machine) (hdir : s.dir ≠ 0) :
    (TIM0_COMPA_vect s).PORTB =
      ClearBit STEPBIT (SetBit STEPBIT
        (if s.dir = 1 then SetBit DIRBIT s.PORTB else ClearBit DIRBIT s.PORTB)) := by
  by_cases h1 : s.dir = 1
  · simp [TIM0_COMPA_vect, h1]
  · simp [TIM0_COMPA_vect, hdir, h1]

theorem TIM0_COMPA_portWrites_moving (s : Machine) (hdir : s.dir ≠ 0) :
    TIM0_COMPA_portWrites s =
      [if s.dir = 1 then SetBit DIRBIT s.PORTB else ClearBit DIRBIT s.PORTB,
        SetBit STEPBIT
          (if s.dir = 1 then SetBit DIRBIT s.PORTB else ClearBit DIRBIT s.PORTB),
        ClearBit STEPBIT (SetBit STEPBIT
          (if s.dir = 1 then SetBit DIRBIT s.PORTB else ClearBit DIRBIT s.PORTB))] := by
  simp [TIM0_COMPA_portWrites, hdir]

/-- Bit `i` of the value of the first port write. -/
theorem dirWrite_testBit (s : Machine) (i : Nat) :
    (if s.dir = 1 then SetBit DIRBIT s.PORTB else ClearBit DIRBIT s.PORTB).testBit i
      = (decide (i < 8) &&
          (if i = DIRBIT then decide (s.dir = 1) else s.PORTB.testBit i)) := by
  by_cases h1 : s.dir = 1
  · rw [if_pos h1, SetBit_testBit]
    by_cases hi : i = DIRBIT
    · simp [hi, h1]
    · have hi2 : ¬ DIRBIT = i := fun h => hi h.symm
      simp [hi, hi2]
  · rw [if_neg h1, ClearBit_testBit _ _ _ (by decide)]
    by_cases hi : i = DIRBIT
    · simp [hi, h1]
    · have hi2 : ¬ DIRBIT = i := fun h => hi h.symm
      simp [hi, hi2]

theorem SetBit_STEPBIT_other (p i : Nat) (hi : i ≠ STEPBIT) (hp : p < 256) :
    (SetBit STEPBIT p).testBit i = p.testBit i := by
  rw [SetBit_testBit]
  have hi2 : ¬ STEPBIT = i := fun h => hi h.symm
  by_cases h8 : i < 8
  · simp [h8, hi2]
  · have hlt : p < 2 ^ i :=
      Nat.lt_of_lt_of_le hp
        (Nat.pow_le_pow_right (show 0 < 2 by decide) (show 8 ≤ i by omega))
    simp [h8, Nat.testBit_lt_two_pow hlt]

theorem ClearBit_STEPBIT_other (p i : Nat) (hi : i ≠ STEPBIT) (hp : p < 256) :
    (ClearBit STEPBIT p).testBit i = p.testBit i := by
  rw [ClearBit_testBit _ _ _ (by decide)]
  have hi2 : ¬ STEPBIT = i := fun h => hi h.symm
  by_cases h8 : i < 8
  · simp [h8, hi2]
  · have hlt : p < 2 ^ i :=
      Nat.lt_of_lt_of_le hp
        (Nat.pow_le_pow_right (show 0 < 2 by decide) (show 8 ≤ i by omega))
    simp [h8, Nat.testBit_lt_two_pow hlt]

theorem SetBit_lt (b p : Nat) : SetBit b p < 256 := by
  unfold SetBit wrapUInt8; omega

theorem ClearBit_lt (b p : Nat) : ClearBit b p < 256 := by
  unfold ClearBit wrapUInt8; omega

theorem dirWrite_lt (s : Machine) :
    (if s.dir = 1 then SetBit DIRBIT s.PORTB else ClearBit DIRBIT s.PORTB) < 256 := by
  split_ifs
  · exact SetBit_lt _ _
  · exact ClearBit_lt _ _

/-- C18. Setup before pulse: in every state with `dir ≠ 0` one run of the
timer-compare handler makes exactly three writes to `PORTB`: (1) the direction
line (bit 1) set when `dir = 1` and cleared otherwise, the other seven bits
kept; (2) the step line (bit 0) set, all other bits kept; (3) the step line
cleared, all other bits kept.  So the direction line keeps the value of write
(1), the step line is low when the handler returns, and bits 2..7 of `PORTB`
are never changed. -/
theorem setup_before_pulse (s : Machine) (hdir : s.dir ≠ 0) :
    ∃ p1 p2 p3, TIM0_COMPA_portWrites s = [p1, p2, p3] ∧
      p1.testBit DIRBIT = decide (s.dir = 1) ∧
      (∀ i, i ≠ DIRBIT → i < 8 → p1.testBit i = s.PORTB.testBit i) ∧
      p2.testBit STEPBIT = true ∧
      (∀ i, i ≠ STEPBIT → p2.testBit i = p1.testBit i) ∧
      p3.testBit STEPBIT = false ∧
      (∀ i, i ≠ STEPBIT → p3.testBit i = p2.testBit i) ∧
      (p2.testBit DIRBIT = p1.testBit DIRBIT ∧ p3.testBit DIRBIT = p1.testBit DIRBIT) ∧
      ((TIM0_COMPA_vect s).PORTB = p3 ∧
        (TIM0_COMPA_vect s).PORTB.testBit STEPBIT = false) ∧
      (∀ i, 2 ≤ i → i ≤ 7 →
        p1.testBit i = s.PORTB.testBit i ∧ p2.testBit i = s.PORTB.testBit i ∧
        p3.testBit i = s.PORTB.testBit i) := by
  have h1 : ∀ i, i ≠ DIRBIT → i < 8 →
      (if s.dir = 1 then SetBit DIRBIT s.PORTB else ClearBit DIRBIT s.PORTB).testBit i
        = s.PORTB.testBit i := by
    intro i hi h8
    rw [dirWrite_testBit]
    simp [hi, h8]
  have h2 : ∀ i, i ≠ STEPBIT →
      (SetBit STEPBIT
        (if s.dir = 1 then SetBit DIRBIT s.PORTB else ClearBit DIRBIT s.PORTB)).testBit i
        = (if s.dir = 1 then SetBit DIRBIT s.PORTB
            else ClearBit DIRBIT s.PORTB).testBit i :=
    fun i hi => SetBit_STEPBIT_other _ i hi (dirWrite_lt s)
  have h3 : ∀ i, i ≠ STEPBIT →
      (ClearBit STEPBIT (SetBit STEPBIT
        (if s.dir = 1 then SetBit DIRBIT s.PORTB else ClearBit DIRBIT s.PORTB))).testBit i
        = (SetBit STEPBIT (if s.dir = 1 then SetBit DIRBIT s.PORTB
            else ClearBit DIRBIT s.PORTB)).testBit i :=
    fun i hi => ClearBit_STEPBIT_other _ i hi (SetBit_lt _ _)
  have hne : DIRBIT ≠ STEPBIT := by decide
  refine ⟨_, _, _, TIM0_COMPA_portWrites_moving s hdir, ?_, h1, SetBit_STEPBIT_testBit _,
    h2, ClearBit_STEPBIT_testBit _, h3, ⟨h2 _ hne, ?_⟩, ⟨TIM0_COMPA_vect_PORTB s hdir, ?_⟩, ?_⟩
  · rw [dirWrite_testBit]
    simp [DIRBIT]
  · rw [h3 _ hne, h2 _ hne]
  · rw [TIM0_COMPA_vect_PORTB s hdir]
    exact ClearBit_STEPBIT_testBit _
  · intro i hlo hhi
    have hd : i ≠ DIRBIT := by unfold DIRBIT; omega
    have hs : i ≠ STEPBIT := by unfold STEPBIT; omega
    refine ⟨h1 i hd (by omega), ?_, ?_⟩
    · rw [h2 i hs, h1 i hd (by omega)]
    · rw [h3 i hs, h2 i hs, h1 i hd (by omega)]

theorem setup_before_pulse_witness :
    ({ initMachine 0 with dir := 1, PORTB := 52 } : Machine).dir ≠ 0 ∧
      ∃ p1 p2 p3,
        TIM0_COMPA_portWrites { initMachine 0 with dir := 1, PORTB := 52 } = [p1, p2, p3] ∧
        p1.testBit DIRBIT
          = decide (({ initMachine 0 with dir := 1, PORTB := 52 } : Machine).dir = 1) ∧
        p2.testBit STEPBIT = true ∧ p3.testBit STEPBIT = false :=
  ⟨by decide,
    match setup_before_pulse { initMachine 0 with dir := 1, PORTB := 52 } (by decide) with
    | ⟨p1, p2, p3, hw, hd, _, h2, _, h3, _⟩ => ⟨p1, p2, p3, hw, hd, h2, h3⟩⟩

/-! ## The closed loop -/

/-- The target velocity when the subtraction of line 92 does not wrap. -/
theorem target_of_fits {fb ctrl : Int} (h : -32768 ≤ fb - ctrl ∧ fb - ctrl ≤ 32767) :
    target fb ctrl = limit (Int.tdiv (fb - ctrl) 2) (-255) 255 := by
  have e1 : wrapInt16 (fb - ctrl) = fb - ctrl := wrapInt16_eq_self h.1 h.2
  have e2 : wrapInt16 (Int.tdiv (fb - ctrl) 2) = Int.tdiv (fb - ctrl) 2 :=
    wrapInt16_eq_self (tdiv_two_bounds h).1 (tdiv_two_bounds h).2
  unfold target
  simp only [e1, e2]

theorem target_pos {fb ctrl : Int} (h1 : 2 ≤ fb - ctrl) (h2 : fb - ctrl ≤ 32767) :
    1 ≤ target fb ctrl ∧ target fb ctrl ≤ 255 := by
  rw [target_of_fits ⟨by omega, h2⟩, tdiv_two]
  unfold limit
  split_ifs <;> omega

theorem target_neg {fb ctrl : Int} (h1 : -32768 ≤ fb - ctrl) (h2 : fb - ctrl ≤ -2) :
    -255 ≤ target fb ctrl ∧ target fb ctrl ≤ -1 := by
  rw [target_of_fits ⟨h1, by omega⟩, tdiv_two]
  unfold limit
  split_ifs <;> omega

theorem ramp_from_zero {t : Int} (ht : -255 ≤ t ∧ t ≤ 255) :
    ramp t 0 = if 0 < t then 1 else if t < 0 then -1 else 0 := by
  rw [ramp_eq ht (by decide)]
  unfold limit
  split_ifs <;> omega

/-- C19. Negative feedback: for all 16-bit `fb` and `ctrl` whose difference
fits in 16 bits and has magnitude at least 2, starting from commanded velocity
0, one pass of the main-loop body followed by one timer-compare event leaves
`ctrl` as it is and `|fb' - ctrl| = |fb - ctrl| - 1`: the commanded step moves
the accumulator toward the setpoint. -/
theorem negative_feedback (s : Machine)
    (hfb : -32768 ≤ s.fb ∧ s.fb ≤ 32767) (hctrl : -32768 ≤ s.ctrl ∧ s.ctrl ≤ 32767)
    (hd : -32768 ≤ s.fb - s.ctrl ∧ s.fb - s.ctrl ≤ 32767)
    (h2 : 2 ≤ |s.fb - s.ctrl|) :
    (TIM0_COMPA_vect (mainLoopBody s 0).1).ctrl = s.ctrl ∧
    |(TIM0_COMPA_vect (mainLoopBody s 0).1).fb - s.ctrl| = |s.fb - s.ctrl| - 1 := by
  rw [mainLoopBody_fst, ramp_from_zero (target_bounds _ _)]
  rcases le_abs.mp h2 with hpos | hneg
  · have ht := target_pos hpos hd.2
    rw [if_pos (by omega), setSpeed_pos s (by decide) (by decide),
      TIM0_COMPA_vect_forward _ rfl]
    refine ⟨rfl, ?_⟩
    show |wrapInt16 (s.fb - 1) - s.ctrl| = _
    rw [wrapInt16_eq_self (by omega) (by omega),
      abs_of_pos (show 0 < s.fb - 1 - s.ctrl by omega),
      abs_of_pos (show 0 < s.fb - s.ctrl by omega)]
    omega
  · have ht := target_neg hd.1 (show s.fb - s.ctrl ≤ -2 by omega)
    rw [if_neg (by omega), if_pos (by omega), setSpeed_neg s (by decide) (by decide),
      TIM0_COMPA_vect_reverse _ rfl]
    refine ⟨rfl, ?_⟩
    show |wrapInt16 (s.fb - -1) - s.ctrl| = _
    rw [wrapInt16_eq_self (by omega) (by omega),
      abs_of_neg (show s.fb - -1 - s.ctrl < 0 by omega),
      abs_of_neg (show s.fb - s.ctrl < 0 by omega)]
    omega

theorem negative_feedback_witness :
    ((-32768 ≤ ({ initMachine 512 with fb := 400 } : Machine).fb ∧
        ({ initMachine 512 with fb := 400 } : Machine).fb ≤ 32767) ∧
      (-32768 ≤ ({ initMachine 512 with fb := 400 } : Machine).ctrl ∧
        ({ initMachine 512 with fb := 400 } : Machine).ctrl ≤ 32767) ∧
      (-32768 ≤ ({ initMachine 512 with fb := 400 } : Machine).fb
          - ({ initMachine 512 with fb := 400 } : Machine).ctrl ∧
        ({ initMachine 512 with fb := 400 } : Machine).fb
          - ({ initMachine 512 with fb := 400 } : Machine).ctrl ≤ 32767) ∧
      2 ≤ |({ initMachine 512 with fb := 400 } : Machine).fb
          - ({ initMachine 512 with fb := 400 } : Machine).ctrl|) ∧
      |(TIM0_COMPA_vect (mainLoopBody { initMachine 512 with fb := 400 } 0).1).fb
          - ({ initMachine 512 with fb := 400 } : Machine).ctrl|
        = |({ initMachine 512 with fb := 400 } : Machine).fb
            - ({ initMachine 512 with fb := 400 } : Machine).ctrl| - 1 :=
  ⟨by decide,
    (negative_feedback { initMachine 512 with fb := 400 } (by decide) (by decide)
      (by decide) (by decide)).2⟩

theorem timerEvents_stopped (s : Machine) (hdir : s.dir = 0) (n : Nat) :
    (timerEvents n s).dir = 0 ∧ (timerEvents n s).fb = s.fb := by
  induction n with
  | zero => exact ⟨hdir, rfl⟩
  | succ n ih =>
    show (TIM0_COMPA_vect (timerEvents n s)).dir = 0 ∧
      (TIM0_COMPA_vect (timerEvents n s)).fb = s.fb
    rw [TIM0_COMPA_vect_stopped _ ih.1]
    exact ih

/-- The target velocity is 0 exactly in the dead band, as long as the
difference of the two 16-bit values is not `65535` or `-65535`. -/
theorem target_eq_zero_iff {fb ctrl : Int}
    (hd : -65535 < fb - ctrl ∧ fb - ctrl < 65535) :
    target fb ctrl = 0 ↔ |fb - ctrl| ≤ 1 := by
  have hw := wrapInt16_bounds (fb - ctrl)
  have e2 : wrapInt16 (Int.tdiv (wrapInt16 (fb - ctrl)) 2)
      = Int.tdiv (wrapInt16 (fb - ctrl)) 2 :=
    wrapInt16_eq_self (tdiv_two_bounds hw).1 (tdiv_two_bounds hw).2
  unfold target
  simp only [e2]
  rw [tdiv_two, abs_le]
  unfold limit
  unfold wrapInt16 at hw ⊢
  split_ifs <;> constructor <;> intro h <;> first | omega | exact h.elim

/-- C20. Dead band and rest state: the target velocity is 0 exactly when
`|fb - ctrl| ≤ 1` (for every pair of 16-bit values whose difference is not
`65535` or `-65535`, in particular whenever the difference fits in 16 bits);
every state with commanded velocity 0 and `|fb - ctrl| ≤ 1` is a rest state:
the main-loop body leaves `v = 0` and sets `dir = 0`, and after any number of
timer-compare events `dir` is still 0 and `fb` is unchanged. -/
theorem dead_band_rest_state (s : Machine)
    (hd : -65535 < s.fb - s.ctrl ∧ s.fb - s.ctrl < 65535) :
    (target s.fb s.ctrl = 0 ↔ |s.fb - s.ctrl| ≤ 1) ∧
    (|s.fb - s.ctrl| ≤ 1 →
      (mainLoopBody s 0).2 = 0 ∧ (mainLoopBody s 0).1.dir = 0 ∧
      ∀ n, (timerEvents n (mainLoopBody s 0).1).dir = 0 ∧
        (timerEvents n (mainLoopBody s 0).1).fb = s.fb) := by
  refine ⟨target_eq_zero_iff hd, fun h => ?_⟩
  have ht : target s.fb s.ctrl = 0 := (target_eq_zero_iff hd).mpr h
  have hv : ramp (target s.fb s.ctrl) 0 = 0 := by rw [ht]; decide
  rw [mainLoopBody_snd, mainLoopBody_fst, hv, setSpeed_zero]
  refine ⟨rfl, rfl, fun n => ?_⟩
  exact timerEvents_stopped { s with dir := 0 } rfl n

theorem dead_band_rest_state_witness :
    (-65535 < ({ initMachine 700 with fb := 701 } : Machine).fb
        - ({ initMachine 700 with fb := 701 } : Machine).ctrl ∧
      ({ initMachine 700 with fb := 701 } : Machine).fb
        - ({ initMachine 700 with fb := 701 } : Machine).ctrl < 65535) ∧
      (mainLoopBody { initMachine 700 with fb := 701 } 0).1.dir = 0 ∧
      (timerEvents 5 (mainLoopBody { initMachine 700 with fb := 701 } 0).1).fb
        = ({ initMachine 700 with fb := 701 } : Machine).fb :=
  ⟨by decide,
    ((dead_band_rest_state { initMachine 700 with fb := 701 } (by decide)).2
      (by decide)).2.1,
    (((dead_band_rest_state { initMachine 700 with fb := 701 } (by decide)).2
      (by decide)).2.2 5).2⟩

end StepServo
